import Mathlib

/-!
Shallow embedding of the thread-pool engine in src/src/thread_pool.cpp.

The pool stores type-erased zero-argument tasks in a std::deque (FIFO:
emplace_back on submit, pop_front in the worker loop).  Each submitted
callable is bound to its arguments and wrapped in a std::packaged_task whose
std::future is returned to the caller as the result handle.  We model a bound
callable invocation as a value of type `Except ε β` (its normal return value
or the exception it raises), a task queue entry as a pair of the task's
submission index and that bound computation, and a result handle as the state
of the future's shared state.  Worker threads, mutual exclusion and the
condition variable are modelled by atomic transitions: the mutex-protected
check-and-remove of the worker loop is a single step, and the post-join state
of `shutdown` is computed directly (join returns only once every worker has
observed the stop signal, which by the worker-loop exit condition requires an
empty queue, hence all queued tasks have been executed).

The `activeWorkers` atomic counter and `getActiveWorkerCount` metric are not
modelled: no claim refers to them, and the counter is written and read only
with relaxed ordering, independent of the queue state.
-/

namespace ThreadPoolModel

/-- State of one result handle, i.e. of the shared state behind the
`std::future` returned by `ThreadPool::submit`.  `pending` is the
not-yet-ready state (a reader blocks); `fulfilled` / `failed` hold the value
or the exception stored by `std::packaged_task::operator()`; `broken` is the
abandoned state produced when the packaged task is destroyed unrun (the
queued closure held the only `shared_ptr` to it, so `tasks.clear()` in an
immediate shutdown destroys it and the shared state reports
`std::future_error` with `broken_promise`). -/
inductive Handle (ε β : Type) where
  | pending
  | fulfilled (v : β)
  | failed (e : ε)
  | broken
deriving DecidableEq

/-- Value read out of a fulfilled handle, with a default otherwise. -/
def Handle.getD {ε β : Type} : Handle ε β → β → β
  | .fulfilled v, _ => v
  | _, d => d

/-- Outcome observed by a caller invoking `get()` on the handle's future. -/
inductive ReadOutcome (ε β : Type) where
  | value (v : β)
  | taskError (e : ε)
  | brokenPromise
  | blocks
deriving DecidableEq

/-- `std::future::get()` on a handle in the given state: blocks while the
state is pending, returns the stored value, rethrows the stored task
exception, or throws `std::future_error(broken_promise)`. -/
def readHandle {ε β : Type} : Handle ε β → ReadOutcome ε β
  | .pending => ReadOutcome.blocks
  | .fulfilled v => ReadOutcome.value v
  | .failed e => ReadOutcome.taskError e
  | .broken => ReadOutcome.brokenPromise

/-- The mutable state of one `ThreadPool` instance: the worker set
(`std::vector<std::thread> workers`, modelled by the indices of the started
threads), the task deque (pairs of submission index and bound computation),
the map from submission index to its result-handle state, the next fresh
submission index, the `stopping` flag, and the `std::cerr` log written by the
worker loop's catch blocks (the list of exceptions that escaped a queued
closure). -/
structure ThreadPoolState (ε β : Type) where
  workers : List Nat
  tasks : List (Nat × Except ε β)
  handle : Nat → Handle ε β
  nextId : Nat
  stopping : Bool
  log : List ε

/-- `ThreadPool::increaseSize(newSize)`: no-op unless `newSize` exceeds the
current worker count, otherwise `emplace_back` exactly the difference. -/
def increaseSize (workers : List Nat) (newSize : Nat) : List Nat :=
  if newSize ≤ workers.length then workers
  else workers ++ List.range' workers.length (newSize - workers.length)

/-- `ThreadPool::ThreadPool(numThreads)`: coerce a requested count of 0 up to
1, then start that many workers via `increaseSize`; queue empty, `stopping`
false. -/
def mkThreadPool (ε β : Type) (numThreads : Nat) : ThreadPoolState ε β :=
  let n := if numThreads = 0 then 1 else numThreads
  { workers := increaseSize [] n
    tasks := []
    handle := fun _ => Handle.pending
    nextId := 0
    stopping := false
    log := [] }

/-- `ThreadPool::submit`: bind the callable to its arguments (the bound
computation is the `Except ε β` argument), wrap it in a packaged task whose
future becomes the pending handle of a fresh submission index, `emplace_back`
the type-erased closure at the tail of the deque, and return the handle
(here: its index) synchronously. -/
def submit {ε β : Type} (s : ThreadPoolState ε β) (r : Except ε β) :
    ThreadPoolState ε β × Nat :=
  ({ s with
      tasks := s.tasks ++ [(s.nextId, r)]
      handle := fun j => if j = s.nextId then Handle.pending else s.handle j
      nextId := s.nextId + 1 }, s.nextId)

/-- A sequence of `submit` calls, in order. -/
def submitAll {ε β : Type} (s : ThreadPoolState ε β) (bs : List (Except ε β)) :
    ThreadPoolState ε β :=
  bs.foldl (fun st b => (submit st b).1) s

/-- The handle state stored by `std::packaged_task::operator()` after running
the bound computation: the return value on normal return, the caught
exception otherwise. -/
def execOne {ε β : Type} : Except ε β → Handle ε β
  | .ok v => Handle.fulfilled v
  | .error e => Handle.failed e

/-- Invoking the queue-stored closure `[taskPack]() { (*taskPack)(); }` for
task `i` with bound computation `b`: `packaged_task::operator()` runs `b` and
stores its value or its exception into the shared state; the exception never
propagates out of the call, so the escaped-exception component is `none`. -/
def wrapperInvoke {ε β : Type} (i : Nat) (b : Except ε β)
    (handles : Nat → Handle ε β) : (Nat → Handle ε β) × Option ε :=
  ((fun j => if j = i then execOne b else handles j), none)

/-- The `try { task(); } catch (...)` block of `ThreadPool::workerLoop`: run
the closure; if an exception escaped it, append it to the `std::cerr` log. -/
def workerRunTask {ε β : Type} (handles : Nat → Handle ε β) (log : List ε)
    (i : Nat) (b : Except ε β) : (Nat → Handle ε β) × List ε :=
  match wrapperInvoke i b handles with
  | (h, none) => (h, log)
  | (h, some e) => (h, log ++ [e])

/-- Workers repeatedly popping the front task and executing it until the
queue is empty (the cumulative effect of worker-loop iterations on the handle
map and the log). -/
def runTasks {ε β : Type} (handles : Nat → Handle ε β) (log : List ε) :
    List (Nat × Except ε β) → (Nat → Handle ε β) × List ε
  | [] => (handles, log)
  | p :: rest =>
    let st := workerRunTask handles log p.1 p.2
    runTasks st.1 st.2 rest

/-- Workers draining the queue to empty: every queued task is popped in FIFO
order and executed, updating handles and log. -/
def drainQueue {ε β : Type} (s : ThreadPoolState ε β) : ThreadPoolState ε β :=
  let r := runTasks s.handle s.log s.tasks
  { s with tasks := [], handle := r.1, log := r.2 }

/-- `tasks.clear()` in `ThreadPool::shutdown(false)`: destroy every queued
closure without running it.  Destroying the closure drops the last
`shared_ptr` to its packaged task, abandoning the future's shared state, so
every still-queued task's handle moves to the `broken` state. -/
def clearTasks {ε β : Type} (s : ThreadPoolState ε β) : ThreadPoolState ε β :=
  { s with
      tasks := []
      handle := fun j =>
        if j ∈ s.tasks.map Prod.fst then Handle.broken else s.handle j }

/-- `ThreadPool::shutdown(waitForTasks)`: under the lock, clear the queue if
not draining, set `stopping`; then notify all workers and join them.  Join
returns only once every worker has exited, which by the worker-loop exit
condition (stop set and queue empty) means the remaining queue has been fully
executed whenever at least one worker exists; finally `workers.clear()`. -/
def shutdown {ε β : Type} (s : ThreadPoolState ε β) (waitForTasks : Bool) :
    ThreadPoolState ε β :=
  let s1 := if waitForTasks then s else clearTasks s
  let s2 : ThreadPoolState ε β := { s1 with stopping := true }
  let s3 := if s2.workers = [] then s2 else drainQueue s2
  { s3 with workers := [] }

/-- `ThreadPool::~ThreadPool()`: exactly `shutdown(true)`. -/
def destructor {ε β : Type} (s : ThreadPoolState ε β) : ThreadPoolState ε β :=
  shutdown s true

/-- `ThreadPool::getQueuedTaskCount()`: the queue length, read under the
lock. -/
def getQueuedTaskCount {ε β : Type} (s : ThreadPoolState ε β) : Nat :=
  s.tasks.length

/-- Result of one woken check of the worker loop (lines 72-80): keep waiting
(the `cv.wait` predicate failed, or the dead `else continue` branch),
exit on the stop signal, or pop and return the head task. -/
inductive DequeueOutcome (ε β : Type) where
  | keepWaiting
  | stopSignal
  | task (p : Nat × Except ε β)

/-- One woken check of the worker loop, under the mutex: `cv.wait` re-blocks
unless `stopping || !tasks.empty()`; then `if (stopping && tasks.empty())
return;`; then pop the front task (the trailing `else continue` is
unreachable once the predicate holds).  Returns the outcome and the queue
left behind. -/
def dequeueOrWait {ε β : Type} (stopping : Bool)
    (tasks : List (Nat × Except ε β)) :
    DequeueOutcome ε β × List (Nat × Except ε β) :=
  if (stopping || !tasks.isEmpty) = false then
    (DequeueOutcome.keepWaiting, tasks)
  else if stopping && tasks.isEmpty then
    (DequeueOutcome.stopSignal, tasks)
  else
    match tasks with
    | p :: rest => (DequeueOutcome.task p, rest)
    | [] => (DequeueOutcome.keepWaiting, tasks)

/-- Interleaving-level view of the shared queue for the at-most-once-dequeue
property: the queue of task indices, the ordered record of dequeue events
(worker, task), and the fresh-index counter. -/
structure QueueTrace where
  queue : List Nat
  taken : List (Nat × Nat)
  nextId : Nat

/-- Atomic transitions on the shared queue.  Each constructor is one critical
section under `tasksMutex`: a submitter appending a fresh task at the tail,
or a worker's check-and-remove popping the head (the mutex makes the check
and the removal a single indivisible step, so no interleaving splits them). -/
inductive QStep : QueueTrace → QueueTrace → Prop where
  | enqueue (s : QueueTrace) :
      QStep s { queue := s.queue ++ [s.nextId], taken := s.taken
                nextId := s.nextId + 1 }
  | dequeue (s : QueueTrace) (w t : Nat) (rest : List Nat)
      (h : s.queue = t :: rest) :
      QStep s { queue := rest, taken := s.taken ++ [(w, t)]
                nextId := s.nextId }

/-- Reachability by any interleaving of submitter and worker steps. -/
def QReach : QueueTrace → QueueTrace → Prop := Relation.ReflTransGen QStep

/-- A freshly constructed pool's queue. -/
def qInit : QueueTrace := { queue := [], taken := [], nextId := 0 }

/-- Invariant: queued and already-taken task indices are pairwise distinct,
and all are below the fresh counter. -/
def QInv (s : QueueTrace) : Prop :=
  (s.queue ++ s.taken.map Prod.snd).Nodup ∧
    ∀ t ∈ s.queue ++ s.taken.map Prod.snd, t < s.nextId

/-- Well-formedness of a pool state: every queued task's index was issued by
an earlier `submit`, i.e. is below `nextId`.  Holds for every state built
from `mkThreadPool` by the operations above. -/
def PoolWF {ε β : Type} (s : ThreadPoolState ε β) : Prop :=
  ∀ p ∈ s.tasks, p.1 < s.nextId

/-- The order in which workers pop tasks: repeatedly observe and remove the
head. -/
def dequeueOrder {ε β : Type} : List (Nat × Except ε β) → List Nat
  | [] => []
  | p :: rest => p.1 :: dequeueOrder rest

/-- The demonstration workload of the result-correctness property:
`f(i) = i*i` for `i` in `[0,1000)`, each returning normally. -/
def squareBodies : List (Except String Nat) :=
  (List.range 1000).map (fun i => Except.ok (i * i))

/-- Single-threaded reference computation of the same workload. -/
def singleThreadSum : Nat :=
  ((List.range 1000).map (fun i => i * i)).sum

/-! ### Basic unfolding lemmas -/

theorem workerRunTask_eq {ε β : Type} (handles : Nat → Handle ε β)
    (log : List ε) (i : Nat) (b : Except ε β) :
    workerRunTask handles log i b =
      ((fun j => if j = i then execOne b else handles j), log) := rfl

theorem runTasks_cons {ε β : Type} (handles : Nat → Handle ε β) (log : List ε)
    (p : Nat × Except ε β) (ts : List (Nat × Except ε β)) :
    runTasks handles log (p :: ts) =
      runTasks (fun j => if j = p.1 then execOne p.2 else handles j) log ts := rfl

theorem runTasks_log {ε β : Type} (ts : List (Nat × Except ε β)) :
    ∀ (handles : Nat → Handle ε β) (log : List ε),
      (runTasks handles log ts).2 = log := by
  induction ts with
  | nil => intro handles log; rfl
  | cons p rest ih => intro handles log; rw [runTasks_cons]; exact ih _ _

theorem runTasks_handle_not_mem {ε β : Type} (ts : List (Nat × Except ε β)) :
    ∀ (handles : Nat → Handle ε β) (log : List ε) (j : Nat),
      j ∉ ts.map Prod.fst → (runTasks handles log ts).1 j = handles j := by
  induction ts with
  | nil => intro handles log j _; rfl
  | cons p rest ih =>
    intro handles log j hj
    have hne : j ≠ p.1 := fun h => hj (by simp [h])
    have hrest : j ∉ rest.map Prod.fst := fun h => hj (by simp [h])
    rw [runTasks_cons, ih _ _ _ hrest]
    simp [hne]

theorem runTasks_handle_mem {ε β : Type} (ts : List (Nat × Except ε β)) :
    ∀ (handles : Nat → Handle ε β) (log : List ε) (j : Nat) (b : Except ε β),
      (j, b) ∈ ts → (∀ q ∈ ts, q.1 = j → q.2 = b) →
      (runTasks handles log ts).1 j = execOne b := by
  induction ts with
  | nil => intro _ _ _ _ hmem _; cases hmem
  | cons p rest ih =>
    intro handles log j b hmem huniq
    by_cases hrest : ∃ q ∈ rest, q.1 = j
    · obtain ⟨q, hq, hqj⟩ := hrest
      have hqb : q.2 = b := huniq q (List.mem_cons_of_mem _ hq) hqj
      have hq' : (j, b) ∈ rest := by
        have : q = (j, b) := Prod.ext hqj hqb
        exact this ▸ hq
      rw [runTasks_cons]
      exact ih _ _ _ _ hq' (fun q hq hqj => huniq q (List.mem_cons_of_mem _ hq) hqj)
    · push_neg at hrest
      have hnm : j ∉ rest.map Prod.fst := by
        intro hmem'
        obtain ⟨q, hq, hqj⟩ := List.mem_map.mp hmem'
        exact hrest q hq hqj
      rw [runTasks_cons, runTasks_handle_not_mem _ _ _ _ hnm]
      rcases List.mem_cons.mp hmem with hp | hp
      · rw [← hp]; simp
      · exact absurd rfl (hrest _ hp)

theorem submitAll_cons {ε β : Type} (s : ThreadPoolState ε β)
    (b : Except ε β) (bs : List (Except ε β)) :
    submitAll s (b :: bs) = submitAll (submit s b).1 bs := rfl

theorem submitAll_workers {ε β : Type} (bs : List (Except ε β)) :
    ∀ s : ThreadPoolState ε β, (submitAll s bs).workers = s.workers := by
  induction bs with
  | nil => intro s; rfl
  | cons b rest ih => intro s; rw [submitAll_cons, ih]; rfl

theorem submitAll_stopping {ε β : Type} (bs : List (Except ε β)) :
    ∀ s : ThreadPoolState ε β, (submitAll s bs).stopping = s.stopping := by
  induction bs with
  | nil => intro s; rfl
  | cons b rest ih => intro s; rw [submitAll_cons, ih]; rfl

theorem submitAll_log {ε β : Type} (bs : List (Except ε β)) :
    ∀ s : ThreadPoolState ε β, (submitAll s bs).log = s.log := by
  induction bs with
  | nil => intro s; rfl
  | cons b rest ih => intro s; rw [submitAll_cons, ih]; rfl

theorem submitAll_nextId {ε β : Type} (bs : List (Except ε β)) :
    ∀ s : ThreadPoolState ε β, (submitAll s bs).nextId = s.nextId + bs.length := by
  induction bs with
  | nil => intro s; rfl
  | cons b rest ih =>
    intro s
    rw [submitAll_cons, ih]
    simp [submit]
    omega

theorem submitAll_tasks {ε β : Type} (bs : List (Except ε β)) :
    ∀ s : ThreadPoolState ε β,
      (submitAll s bs).tasks =
        s.tasks ++ (List.range' s.nextId bs.length).zip bs := by
  induction bs with
  | nil => intro s; simp [submitAll]
  | cons b rest ih =>
    intro s
    rw [submitAll_cons, ih]
    show (s.tasks ++ [(s.nextId, b)]) ++ (List.range' (s.nextId + 1) rest.length).zip rest = _
    rw [List.length_cons, List.range'_succ s.nextId rest.length 1]
    simp [List.zip_cons_cons]

theorem submitAll_handle_pending {ε β : Type} (bs : List (Except ε β)) :
    ∀ s : ThreadPoolState ε β, s.handle = (fun _ => Handle.pending) →
      (submitAll s bs).handle = fun _ => Handle.pending := by
  induction bs with
  | nil => intro s h; exact h
  | cons b rest ih =>
    intro s h
    rw [submitAll_cons]
    apply ih
    funext j
    show (if j = s.nextId then Handle.pending else s.handle j) = Handle.pending
    rw [h]
    exact ite_self _

/-! ### Indexed queues: membership and uniqueness -/

theorem zipRange_mem {γ : Type} (l : List γ) (a k : Nat) (h : k < l.length) :
    (a + k, l.get ⟨k, h⟩) ∈ (List.range' a l.length).zip l := by
  have hr : k < (List.range' a l.length).length := by simpa using h
  have hk : k < ((List.range' a l.length).zip l).length := by simp [h]
  have he : ((List.range' a l.length).zip l)[k] =
      ((List.range' a l.length)[k], l[k]) := List.getElem_zip ..
  have hm := List.getElem_mem hk
  rw [he, List.getElem_range'] at hm
  simpa [List.get_eq_getElem] using hm

theorem zipRange_uniq {γ : Type} (l : List γ) (a k : Nat) (h : k < l.length)
    (q : Nat × γ) (hq : q ∈ (List.range' a l.length).zip l)
    (hfst : q.1 = a + k) : q.2 = l.get ⟨k, h⟩ := by
  obtain ⟨i, hi, hqi⟩ := List.mem_iff_getElem.mp hq
  have hil : i < l.length := by simpa using hi
  have hir : i < (List.range' a l.length).length := by simpa using hil
  have he : ((List.range' a l.length).zip l)[i] =
      ((List.range' a l.length)[i], l[i]) := List.getElem_zip ..
  rw [he, List.getElem_range'] at hqi
  have h1 : q.1 = a + 1 * i := by rw [← hqi]
  have hik : i = k := by omega
  have h2 : q.2 = l[i] := by rw [← hqi]
  rw [h2, List.get_eq_getElem]
  exact hik ▸ rfl

theorem fst_nodup_uniq {γ : Type} (ts : List (Nat × γ))
    (hn : (ts.map Prod.fst).Nodup) (p q : Nat × γ)
    (hp : p ∈ ts) (hq : q ∈ ts) (hfst : q.1 = p.1) : q.2 = p.2 := by
  have := List.inj_on_of_nodup_map hn hq hp hfst
  rw [this]

/-! ### Construction and shutdown unfoldings -/

theorem mkThreadPool_workers (ε β : Type) (n : Nat) :
    (mkThreadPool ε β n).workers = List.range' 0 (max n 1) := by
  show increaseSize [] (if n = 0 then 1 else n) = List.range' 0 (max n 1)
  rcases Nat.eq_zero_or_pos n with h0 | hpos
  · subst h0; rfl
  · have hne : ¬ n = 0 := by omega
    have h2 : max n 1 = n := by omega
    rw [if_neg hne, h2]
    show (if n ≤ 0 then [] else [] ++ List.range' 0 (n - 0)) = List.range' 0 n
    have hle : ¬ n ≤ 0 := by omega
    simp [hle]

theorem mkThreadPool_workers_ne (ε β : Type) (n : Nat) :
    (mkThreadPool ε β n).workers ≠ [] := by
  rw [mkThreadPool_workers]
  intro h
  have hlen := congrArg List.length h
  simp at hlen

theorem mkThreadPool_tasks (ε β : Type) (n : Nat) :
    (mkThreadPool ε β n).tasks = [] := rfl

theorem mkThreadPool_handle (ε β : Type) (n : Nat) :
    (mkThreadPool ε β n).handle = fun _ => Handle.pending := rfl

theorem shutdown_true_eq {ε β : Type} (s : ThreadPoolState ε β)
    (h : s.workers ≠ []) :
    shutdown s true =
      { workers := []
        tasks := []
        handle := (runTasks s.handle s.log s.tasks).1
        nextId := s.nextId
        stopping := true
        log := (runTasks s.handle s.log s.tasks).2 } := by
  simp [shutdown, drainQueue, h]

theorem shutdown_false_eq {ε β : Type} (s : ThreadPoolState ε β) :
    shutdown s false =
      { workers := []
        tasks := []
        handle := fun j =>
          if j ∈ s.tasks.map Prod.fst then Handle.broken else s.handle j
        nextId := s.nextId
        stopping := true
        log := s.log } := by
  simp only [shutdown, clearTasks]
  by_cases h : s.workers = [] <;> simp [h, drainQueue, runTasks]

/-! ### The shared-queue interleaving invariant -/

theorem qstep_inv {a b : QueueTrace} (h : QStep a b) (ha : QInv a) : QInv b := by
  obtain ⟨hnodup, hlt⟩ := ha
  cases h with
  | enqueue =>
    refine ⟨?_, ?_⟩
    · show ((a.queue ++ [a.nextId]) ++ a.taken.map Prod.snd).Nodup
      have hperm : List.Perm ((a.queue ++ [a.nextId]) ++ a.taken.map Prod.snd)
          (a.nextId :: (a.queue ++ a.taken.map Prod.snd)) := by
        rw [List.append_assoc]
        exact List.perm_middle
      rw [hperm.nodup_iff, List.nodup_cons]
      refine ⟨fun hmem => ?_, hnodup⟩
      exact absurd (hlt _ hmem) (by omega)
    · show ∀ x ∈ (a.queue ++ [a.nextId]) ++ a.taken.map Prod.snd, x < a.nextId + 1
      intro x hx
      rw [List.append_assoc] at hx
      rcases List.mem_append.mp hx with h1 | h2
      · have := hlt x (List.mem_append.mpr (Or.inl h1)); omega
      · rcases List.mem_cons.mp h2 with rfl | h3
        · omega
        · have := hlt x (List.mem_append.mpr (Or.inr h3)); omega
  | dequeue w t rest hq =>
    have hperm : List.Perm (rest ++ (a.taken ++ [(w, t)]).map Prod.snd)
        (a.queue ++ a.taken.map Prod.snd) := by
      simp only [List.map_append, List.map_cons, List.map_nil]
      rw [hq, ← List.append_assoc]
      exact List.perm_append_comm
    refine ⟨?_, ?_⟩
    · show (rest ++ (a.taken ++ [(w, t)]).map Prod.snd).Nodup
      exact hperm.nodup_iff.mpr hnodup
    · show ∀ x ∈ rest ++ (a.taken ++ [(w, t)]).map Prod.snd, x < a.nextId
      intro x hx
      exact hlt x (hperm.mem_iff.mp hx)

theorem qreach_inv {s : QueueTrace} (h : QReach qInit s) : QInv s := by
  induction h with
  | refl => exact ⟨List.nodup_nil, by simp [qInit]⟩
  | tail _ hstep ih => exact qstep_inv hstep ih

/-- A concrete interleaving: two submissions, then worker 0 and worker 1 each
pop one task. -/
theorem qreach_example :
    QReach qInit { queue := [], taken := [(0, 0), (1, 1)], nextId := 2 } := by
  have h1 : QStep qInit { queue := [0], taken := [], nextId := 1 } :=
    QStep.enqueue qInit
  have h2 : QStep { queue := [0], taken := [], nextId := 1 }
      { queue := [0, 1], taken := [], nextId := 2 } :=
    QStep.enqueue _
  have h3 : QStep { queue := [0, 1], taken := [], nextId := 2 }
      { queue := [1], taken := [(0, 0)], nextId := 2 } :=
    QStep.dequeue _ 0 0 [1] rfl
  have h4 : QStep { queue := [1], taken := [(0, 0)], nextId := 2 }
      { queue := [], taken := [(0, 0), (1, 1)], nextId := 2 } :=
    QStep.dequeue _ 1 1 [] rfl
  exact Relation.ReflTransGen.tail (Relation.ReflTransGen.tail
    (Relation.ReflTransGen.tail (Relation.ReflTransGen.tail
      Relation.ReflTransGen.refl h1) h2) h3) h4

theorem mkThreadPool_nextId (ε β : Type) (n : Nat) :
    (mkThreadPool ε β n).nextId = 0 := rfl

theorem dequeueOrder_eq {ε β : Type} (ts : List (Nat × Except ε β)) :
    dequeueOrder ts = ts.map Prod.fst := by
  induction ts with
  | nil => rfl
  | cons p rest ih => simp [dequeueOrder, ih]

/-! ### Claim theorems -/

/-- C9: for every requested initial worker count `n`, construction starts
exactly `max(n, 1)` workers immediately (a request of 0 is coerced up to 1),
and performs no other validation or rejection: `mkThreadPool` is total and
its worker set is exactly the first `max(n, 1)` thread indices. -/
theorem construct_worker_coercion :
    ∀ (ε β : Type) (n : Nat),
      (mkThreadPool ε β n).workers = List.range' 0 (max n 1) ∧
      (mkThreadPool ε β n).workers.length = max n 1 ∧
      (mkThreadPool ε β 0).workers.length = 1 := by
  intro ε β n
  refine ⟨mkThreadPool_workers ε β n, ?_, ?_⟩
  · rw [mkThreadPool_workers]; simp
  · rw [mkThreadPool_workers]; simp

/-- C8: `increaseSize` is a no-op when the target does not exceed the current
worker count, and otherwise starts exactly `target - current` new workers
while leaving the existing workers untouched (they remain the unchanged
prefix); in particular growing to 4 then 2 leaves 4 workers, and growing to 4
then 10 leaves exactly 10 distinct workers. -/
theorem increase_size_monotonic_growth :
    ∀ (ws : List Nat) (t : Nat),
      (t ≤ ws.length → increaseSize ws t = ws) ∧
      (ws.length < t →
        (increaseSize ws t).length = t ∧
        (increaseSize ws t).take ws.length = ws) ∧
      (increaseSize (increaseSize [] 4) 2).length = 4 ∧
      (increaseSize (increaseSize [] 4) 10).length = 10 ∧
      (increaseSize (increaseSize [] 4) 10).Nodup := by
  intro ws t
  refine ⟨fun h => ?_, fun h => ⟨?_, ?_⟩, by decide, by decide, by decide⟩
  · simp [increaseSize, h]
  · have hn : ¬ t ≤ ws.length := by omega
    simp [increaseSize, hn]
    omega
  · have hn : ¬ t ≤ ws.length := by omega
    rw [increaseSize, if_neg hn]
    exact List.take_left ws _

/-- C8 witness: the no-op branch at `[0, 1]` with target 1, and the growth
branch at `[0, 1]` with target 5. -/
theorem increase_size_monotonic_growth_witness :
    increaseSize [0, 1] 1 = [0, 1] ∧ (increaseSize [0, 1] 5).length = 5 :=
  ⟨(increase_size_monotonic_growth [0, 1] 1).1 (by decide),
   ((increase_size_monotonic_growth [0, 1] 5).2.1 (by decide)).1⟩

/-- C5: the task queue is FIFO: `submit` appends at the tail, and the order
in which the head is repeatedly removed (hence the start order under a
single worker) is exactly the submission order `0, 1, ..., N-1` of the task
indices stamped at enqueue time. -/
theorem queue_fifo_order :
    ∀ (ε β : Type) (s : ThreadPoolState ε β) (b : Except ε β)
      (bs : List (Except ε β)),
      (submit s b).1.tasks = s.tasks ++ [(s.nextId, b)] ∧
      dequeueOrder ((submitAll (mkThreadPool ε β 1) bs).tasks) =
        List.range bs.length := by
  intro ε β s b bs
  refine ⟨rfl, ?_⟩
  rw [dequeueOrder_eq, submitAll_tasks, mkThreadPool_tasks, List.nil_append,
    mkThreadPool_nextId]
  rw [List.map_fst_zip _ _ (by simp)]
  exact (List.range_eq_range' _).symm

/-- C6: a woken worker's dequeue step returns the stop signal (worker exits)
iff the stop flag is set and the queue is empty; with the wait predicate
false (spurious wakeup with nothing to do) it keeps waiting, never exiting or
dequeuing from an empty queue; and in every other woken state it removes and
returns the head task. -/
theorem dequeue_or_wait_stop_iff :
    ∀ (ε β : Type) (stopping : Bool) (tasks : List (Nat × Except ε β)),
      ((dequeueOrWait stopping tasks).1 = DequeueOutcome.stopSignal ↔
        (stopping = true ∧ tasks = [])) ∧
      (stopping = false → tasks = [] →
        dequeueOrWait stopping tasks = (DequeueOutcome.keepWaiting, tasks)) ∧
      (∀ p rest, tasks = p :: rest →
        dequeueOrWait stopping tasks = (DequeueOutcome.task p, rest)) := by
  intro ε β stopping tasks
  refine ⟨?_, ?_, ?_⟩
  · cases stopping <;> cases tasks <;> simp [dequeueOrWait]
  · rintro rfl rfl; rfl
  · rintro p rest rfl; cases stopping <;> rfl

/-- C6 witness: the three branches at concrete inputs. -/
theorem dequeue_or_wait_stop_iff_witness :
    (dequeueOrWait true ([] : List (Nat × Except String Nat))).1 =
      DequeueOutcome.stopSignal ∧
    dequeueOrWait false ([] : List (Nat × Except String Nat)) =
      (DequeueOutcome.keepWaiting, ([] : List (Nat × Except String Nat))) ∧
    dequeueOrWait false [(0, Except.ok 5)] =
      (DequeueOutcome.task (0, Except.ok 5),
        ([] : List (Nat × Except String Nat))) := by
  refine ⟨?_, ?_, ?_⟩
  · exact (dequeue_or_wait_stop_iff String Nat true []).1.mpr ⟨rfl, rfl⟩
  · exact (dequeue_or_wait_stop_iff String Nat false []).2.1 rfl rfl
  · exact (dequeue_or_wait_stop_iff String Nat false [(0, Except.ok 5)]).2.2
      (0, Except.ok 5) [] rfl

/-- C7: in every interleaving of submitter and worker steps on the shared
queue (each critical section an atomic step, modelling the mutual exclusion
around the check-and-remove), no task index is ever delivered to two dequeue
events: the record of (worker, task) dequeues has pairwise-distinct tasks, so
each enqueued task is executed at most once across all workers. -/
theorem no_task_dequeued_twice :
    ∀ s : QueueTrace, QReach qInit s → (s.taken.map Prod.snd).Nodup := by
  intro s h
  exact (qreach_inv h).1.sublist (List.sublist_append_right s.queue _)

/-- C7 witness: the interleaving in which workers 0 and 1 each pop one of two
submitted tasks; the delivered tasks are distinct. -/
theorem no_task_dequeued_twice_witness :
    QReach qInit { queue := [], taken := [(0, 0), (1, 1)], nextId := 2 } ∧
    ((({ queue := [], taken := [(0, 0), (1, 1)], nextId := 2 } :
        QueueTrace).taken.map Prod.snd).Nodup) :=
  ⟨qreach_example, no_task_dequeued_twice _ qreach_example⟩

theorem submitAll_fresh_drain_handle (ε β : Type) (n : Nat)
    (bs : List (Except ε β)) (k : Nat) (h : k < bs.length) :
    (runTasks (submitAll (mkThreadPool ε β n) bs).handle
      (submitAll (mkThreadPool ε β n) bs).log
      (submitAll (mkThreadPool ε β n) bs).tasks).1 k =
      execOne (bs.get ⟨k, h⟩) := by
  rw [submitAll_tasks, mkThreadPool_tasks, List.nil_append, mkThreadPool_nextId]
  apply runTasks_handle_mem
  · simpa using zipRange_mem bs 0 k h
  · intro q hq hq1
    exact zipRange_uniq bs 0 k h q hq (by omega)

theorem shutdown_drain_fresh_handle (ε β : Type) (n : Nat)
    (bs : List (Except ε β)) (k : Nat) (h : k < bs.length) :
    (shutdown (submitAll (mkThreadPool ε β n) bs) true).handle k =
      execOne (bs.get ⟨k, h⟩) := by
  have hworkers : (submitAll (mkThreadPool ε β n) bs).workers ≠ [] := by
    rw [submitAll_workers]
    exact mkThreadPool_workers_ne ε β n
  rw [shutdown_true_eq _ hworkers]
  exact submitAll_fresh_drain_handle ε β n bs k h

theorem squareBodies_get (i : Nat) (h : i < squareBodies.length) :
    squareBodies.get ⟨i, h⟩ = Except.ok (i * i) := by
  simp [squareBodies, List.get_eq_getElem]

theorem squareBodies_length : squareBodies.length = 1000 := by
  simp [squareBodies]

/-- C1: a submitted callable that returns normally resolves its result handle
to exactly its return value; in particular the `f(i) = i*i` workload over
`[0,1000)` summed through the handles equals the single-threaded reference
sum, for any requested pool size. -/
theorem submit_resolves_to_call_value :
    (∀ (ε α β : Type) (s : ThreadPoolState ε β) (f : α → Except ε β) (a : α)
        (v : β), PoolWF s → f a = Except.ok v →
        (drainQueue (submit s (f a)).1).handle (submit s (f a)).2 =
          Handle.fulfilled v) ∧
    (∀ n : Nat,
      ((List.range 1000).map (fun i =>
        ((shutdown (submitAll (mkThreadPool String Nat n) squareBodies)
            true).handle i).getD 0)).sum = singleThreadSum) := by
  constructor
  · intro ε α β s f a v hwf hok
    show (runTasks (fun j => if j = s.nextId then Handle.pending else s.handle j)
      s.log (s.tasks ++ [(s.nextId, f a)])).1 s.nextId = Handle.fulfilled v
    have hmem : (s.nextId, f a) ∈ s.tasks ++ [(s.nextId, f a)] :=
      List.mem_append_right _ (List.mem_singleton.mpr rfl)
    have huniq : ∀ q ∈ s.tasks ++ [(s.nextId, f a)],
        q.1 = s.nextId → q.2 = f a := by
      intro q hq hq1
      rcases List.mem_append.mp hq with h1 | h2
      · exact absurd (hwf q h1) (by omega)
      · rw [List.mem_singleton.mp h2]
    refine (runTasks_handle_mem _ _ _ _ _ hmem huniq).trans ?_
    rw [hok]
    rfl
  · intro n
    have hmap : (List.range 1000).map (fun i =>
        ((shutdown (submitAll (mkThreadPool String Nat n) squareBodies)
            true).handle i).getD 0) =
        (List.range 1000).map (fun i => i * i) := by
      apply List.map_congr_left
      intro i hi
      have hi' : i < 1000 := List.mem_range.mp hi
      have hh := shutdown_drain_fresh_handle String Nat n squareBodies i
        (by rw [squareBodies_length]; exact hi')
      rw [squareBodies_get] at hh
      rw [hh]
      rfl
    rw [hmap]
    rfl

/-- C1 witness: submitting the square of 5 on a fresh two-worker pool and
draining yields a handle fulfilled with 25, and the concrete pool size 8
satisfies the summation property. -/
theorem submit_resolves_to_call_value_witness :
    (drainQueue (submit (mkThreadPool String Nat 2)
        ((fun i : Nat => (Except.ok (i * i) : Except String Nat)) 5)).1).handle
      (submit (mkThreadPool String Nat 2)
        ((fun i : Nat => (Except.ok (i * i) : Except String Nat)) 5)).2 =
      Handle.fulfilled 25 ∧
    ((List.range 1000).map (fun i =>
      ((shutdown (submitAll (mkThreadPool String Nat 8) squareBodies)
          true).handle i).getD 0)).sum = singleThreadSum :=
  ⟨submit_resolves_to_call_value.1 String Nat Nat (mkThreadPool String Nat 2)
      (fun i : Nat => (Except.ok (i * i) : Except String Nat)) 5 25
      (fun p hp => absurd hp (List.not_mem_nil p)) rfl,
   submit_resolves_to_call_value.2 8⟩

/-- C2: submitting N normally-returning tasks on a freshly constructed pool
(which always has at least one worker) and then calling `shutdown(true)`
leaves, by the time shutdown returns: every handle fulfilled with its task's
value, a queued-task count of 0, and an empty (fully joined) worker set. -/
theorem drain_shutdown_completes_all :
    ∀ (β : Type) (n : Nat) (vs : List β),
      getQueuedTaskCount (shutdown (submitAll (mkThreadPool String β n)
          (vs.map Except.ok)) true) = 0 ∧
      (shutdown (submitAll (mkThreadPool String β n) (vs.map Except.ok))
          true).workers = [] ∧
      ∀ (k : Nat) (h : k < vs.length),
        (shutdown (submitAll (mkThreadPool String β n) (vs.map Except.ok))
            true).handle k = Handle.fulfilled (vs.get ⟨k, h⟩) := by
  intro β n vs
  have hworkers : (submitAll (mkThreadPool String β n)
      (vs.map Except.ok)).workers ≠ [] := by
    rw [submitAll_workers]
    exact mkThreadPool_workers_ne String β n
  refine ⟨?_, ?_, ?_⟩
  · rw [getQueuedTaskCount, shutdown_true_eq _ hworkers]; rfl
  · rw [shutdown_true_eq _ hworkers]
  · intro k h
    have hk : k < (vs.map Except.ok : List (Except String β)).length := by
      simpa using h
    rw [shutdown_drain_fresh_handle String β n (vs.map Except.ok) k hk]
    have : (vs.map Except.ok : List (Except String β)).get ⟨k, hk⟩ =
        Except.ok (vs.get ⟨k, h⟩) := by
      simp [List.get_eq_getElem]
    rw [this]
    rfl

/-- C2 witness: three tasks on a three-worker pool; after `shutdown(true)`
the queue count is 0, the worker set is empty, and handle 1 is fulfilled
with its task's value 20. -/
theorem drain_shutdown_completes_all_witness :
    getQueuedTaskCount (shutdown (submitAll (mkThreadPool String Nat 3)
        ([10, 20, 30].map Except.ok)) true) = 0 ∧
    (shutdown (submitAll (mkThreadPool String Nat 3)
        ([10, 20, 30].map Except.ok)) true).workers = [] ∧
    (shutdown (submitAll (mkThreadPool String Nat 3)
        ([10, 20, 30].map Except.ok)) true).handle 1 = Handle.fulfilled 20 :=
  ⟨(drain_shutdown_completes_all Nat 3 [10, 20, 30]).1,
   (drain_shutdown_completes_all Nat 3 [10, 20, 30]).2.1,
   (drain_shutdown_completes_all Nat 3 [10, 20, 30]).2.2 1 (by decide)⟩

/-- C3: a task whose body raises an error resolves only its own handle to a
failure (the submitter reading the handle observes that task's error), while
a subsequently submitted task on the same pool still completes successfully,
and the engine's error log is unchanged: `packaged_task` stores the
exception in the future's shared state, so nothing ever escapes to the
worker loop's catch-and-log blocks. -/
theorem task_error_isolated_to_handle :
    ∀ (ε β : Type) (s : ThreadPoolState ε β) (e : ε) (v : β), PoolWF s →
      (drainQueue (submit (submit s (Except.error e)).1 (Except.ok v)).1).handle
          (submit s (Except.error e)).2 = Handle.failed e ∧
      readHandle
        ((drainQueue (submit (submit s (Except.error e)).1
            (Except.ok v)).1).handle (submit s (Except.error e)).2) =
          ReadOutcome.taskError e ∧
      (drainQueue (submit (submit s (Except.error e)).1 (Except.ok v)).1).handle
          (submit (submit s (Except.error e)).1 (Except.ok v)).2 =
          Handle.fulfilled v ∧
      (drainQueue (submit (submit s (Except.error e)).1 (Except.ok v)).1).log =
        s.log := by
  intro ε β s e v hwf
  have h1 : (drainQueue (submit (submit s (Except.error e)).1
      (Except.ok v)).1).handle (submit s (Except.error e)).2 =
      Handle.failed e := by
    show (runTasks
      (fun j => if j = s.nextId + 1 then Handle.pending
        else if j = s.nextId then Handle.pending else s.handle j)
      s.log
      ((s.tasks ++ [(s.nextId, Except.error e)]) ++
        [(s.nextId + 1, Except.ok v)])).1 s.nextId = Handle.failed e
    have hmem : (s.nextId, Except.error e) ∈
        (s.tasks ++ [(s.nextId, Except.error e)]) ++
          [(s.nextId + 1, Except.ok v)] :=
      List.mem_append_left _ (List.mem_append_right _ (List.mem_singleton.mpr rfl))
    have huniq : ∀ q ∈ (s.tasks ++ [(s.nextId, Except.error e)]) ++
        [(s.nextId + 1, Except.ok v)],
        q.1 = s.nextId → q.2 = Except.error e := by
      intro q hq hq1
      rcases List.mem_append.mp hq with h12 | h3
      · rcases List.mem_append.mp h12 with ha | hb
        · exact absurd (hwf q ha) (by omega)
        · rw [List.mem_singleton.mp hb]
      · have := List.mem_singleton.mp h3
        rw [this] at hq1
        exact absurd hq1 (by omega)
    exact runTasks_handle_mem _ _ _ _ _ hmem huniq
  have h2 : (drainQueue (submit (submit s (Except.error e)).1
      (Except.ok v)).1).handle
      (submit (submit s (Except.error e)).1 (Except.ok v)).2 =
      Handle.fulfilled v := by
    show (runTasks
      (fun j => if j = s.nextId + 1 then Handle.pending
        else if j = s.nextId then Handle.pending else s.handle j)
      s.log
      ((s.tasks ++ [(s.nextId, Except.error e)]) ++
        [(s.nextId + 1, Except.ok v)])).1 (s.nextId + 1) = Handle.fulfilled v
    have hmem : (s.nextId + 1, Except.ok v) ∈
        (s.tasks ++ [(s.nextId, Except.error e)]) ++
          [(s.nextId + 1, Except.ok v)] :=
      List.mem_append_right _ (List.mem_singleton.mpr rfl)
    have huniq : ∀ q ∈ (s.tasks ++ [(s.nextId, Except.error e)]) ++
        [(s.nextId + 1, Except.ok v)],
        q.1 = s.nextId + 1 → q.2 = Except.ok v := by
      intro q hq hq1
      rcases List.mem_append.mp hq with h12 | h3
      · rcases List.mem_append.mp h12 with ha | hb
        · exact absurd (hwf q ha) (by omega)
        · have := List.mem_singleton.mp hb
          rw [this] at hq1
          exact absurd hq1 (by omega)
      · rw [List.mem_singleton.mp h3]
    exact runTasks_handle_mem _ _ _ _ _ hmem huniq
  refine ⟨h1, ?_, h2, ?_⟩
  · rw [h1]; rfl
  · show (runTasks _ s.log _).2 = s.log
    exact runTasks_log _ _ _

/-- C3 witness: an erroring task then a succeeding task on a fresh pool; the
first handle fails with the task's error, the second is fulfilled, and the
log stays empty. -/
theorem task_error_isolated_to_handle_witness :
    (drainQueue (submit (submit (mkThreadPool String Nat 2)
        (Except.error "boom")).1 (Except.ok 7)).1).handle
      (submit (mkThreadPool String Nat 2) (Except.error "boom")).2 =
      Handle.failed "boom" ∧
    (drainQueue (submit (submit (mkThreadPool String Nat 2)
        (Except.error "boom")).1 (Except.ok 7)).1).handle
      (submit (submit (mkThreadPool String Nat 2)
        (Except.error "boom")).1 (Except.ok 7)).2 = Handle.fulfilled 7 ∧
    (drainQueue (submit (submit (mkThreadPool String Nat 2)
        (Except.error "boom")).1 (Except.ok 7)).1).log = [] :=
  ⟨(task_error_isolated_to_handle String Nat (mkThreadPool String Nat 2)
      "boom" 7 (fun p hp => absurd hp (List.not_mem_nil p))).1,
   (task_error_isolated_to_handle String Nat (mkThreadPool String Nat 2)
      "boom" 7 (fun p hp => absurd hp (List.not_mem_nil p))).2.2.1,
   (task_error_isolated_to_handle String Nat (mkThreadPool String Nat 2)
      "boom" 7 (fun p hp => absurd hp (List.not_mem_nil p))).2.2.2⟩

/-- C4: every task still queued when `shutdown(false)` discards the queue
gets its handle moved to the distinct `broken` failure state (the abandoned
`packaged_task` stores `broken_promise`), so a caller subsequently reading
the handle receives that failure instead of blocking forever; the queue
itself is left empty. -/
theorem immediate_shutdown_breaks_handles :
    ∀ (ε β : Type) (n : Nat) (bs : List (Except ε β)) (k : Nat),
      k < bs.length →
      (shutdown (submitAll (mkThreadPool ε β n) bs) false).handle k =
        Handle.broken ∧
      readHandle ((shutdown (submitAll (mkThreadPool ε β n) bs)
          false).handle k) = ReadOutcome.brokenPromise ∧
      (shutdown (submitAll (mkThreadPool ε β n) bs) false).tasks = [] := by
  intro ε β n bs k hk
  have hmem : k ∈ (submitAll (mkThreadPool ε β n) bs).tasks.map Prod.fst := by
    rw [submitAll_tasks, mkThreadPool_tasks, List.nil_append, mkThreadPool_nextId]
    rw [List.map_fst_zip _ _ (by simp)]
    rw [List.mem_range'_1]
    omega
  have h1 : (shutdown (submitAll (mkThreadPool ε β n) bs) false).handle k =
      Handle.broken := by
    rw [shutdown_false_eq]
    show (if k ∈ (submitAll (mkThreadPool ε β n) bs).tasks.map Prod.fst
      then Handle.broken
      else (submitAll (mkThreadPool ε β n) bs).handle k) = Handle.broken
    rw [if_pos hmem]
  refine ⟨h1, ?_, ?_⟩
  · rw [h1]; rfl
  · rw [shutdown_false_eq]

/-- C4 witness: two tasks discarded by immediate shutdown; handle 0 is in the
broken state and reading it yields the broken-promise failure. -/
theorem immediate_shutdown_breaks_handles_witness :
    (shutdown (submitAll (mkThreadPool String Nat 2)
        [Except.ok 1, Except.ok 2]) false).handle 0 = Handle.broken ∧
    readHandle ((shutdown (submitAll (mkThreadPool String Nat 2)
        [Except.ok 1, Except.ok 2]) false).handle 0) =
      ReadOutcome.brokenPromise :=
  ⟨(immediate_shutdown_breaks_handles String Nat 2
      [Except.ok 1, Except.ok 2] 0 (by decide)).1,
   (immediate_shutdown_breaks_handles String Nat 2
      [Except.ok 1, Except.ok 2] 0 (by decide)).2.1⟩

/-- C10: destroying a pool is exactly a drain shutdown: the destructor calls
`shutdown(true)`, so the worker set ends empty (all joined), and on any pool
that still has a worker every already-enqueued task is executed to completion
(its handle resolves per its body) and the queue is left empty — no pending
task is silently discarded. -/
theorem destructor_drain_shutdown :
    ∀ (ε β : Type) (s : ThreadPoolState ε β),
      destructor s = shutdown s true ∧
      (destructor s).workers = [] ∧
      (s.workers ≠ [] → (s.tasks.map Prod.fst).Nodup →
        (destructor s).tasks = [] ∧
        ∀ p ∈ s.tasks, (destructor s).handle p.1 = execOne p.2) := by
  intro ε β s
  refine ⟨rfl, rfl, fun hw hn => ⟨?_, ?_⟩⟩
  · rw [destructor, shutdown_true_eq s hw]
  · intro p hp
    rw [destructor, shutdown_true_eq s hw]
    show (runTasks s.handle s.log s.tasks).1 p.1 = execOne p.2
    exact runTasks_handle_mem _ _ _ _ _ (by simpa using hp)
      (fun q hq hq1 => fst_nodup_uniq s.tasks hn p q hp hq hq1)

/-- C10 witness: a two-worker pool with two enqueued tasks; destruction
leaves an empty queue and both handles resolved per their bodies. -/
theorem destructor_drain_shutdown_witness :
    (destructor (submitAll (mkThreadPool String Nat 2)
        [Except.ok 7, Except.error "x"])).tasks = [] ∧
    (destructor (submitAll (mkThreadPool String Nat 2)
        [Except.ok 7, Except.error "x"])).handle 0 = Handle.fulfilled 7 ∧
    (destructor (submitAll (mkThreadPool String Nat 2)
        [Except.ok 7, Except.error "x"])).handle 1 = Handle.failed "x" := by
  have h := (destructor_drain_shutdown String Nat
    (submitAll (mkThreadPool String Nat 2) [Except.ok 7, Except.error "x"])).2.2
    (by rw [submitAll_workers]; exact mkThreadPool_workers_ne String Nat 2)
    (by rw [submitAll_tasks]; decide)
  refine ⟨h.1, ?_, ?_⟩
  · exact h.2 (0, Except.ok 7) (show (0, Except.ok 7) ∈
      [((0 : Nat), (Except.ok 7 : Except String Nat)), (1, Except.error "x")]
      from List.mem_cons_self _ _)
  · exact h.2 (1, Except.error "x") (show (1, Except.error "x") ∈
      [((0 : Nat), (Except.ok 7 : Except String Nat)), (1, Except.error "x")]
      from List.mem_cons_of_mem _ (List.mem_cons_self _ _))

end ThreadPoolModel
